import Mathlib

/-!
Shallow embedding of the TradeMaxer trading engine
(`src/src/main.cpp`, sections `trading_engine.cpp` / `trading_engine.h`,
C++ namespace `TradingSystem`) and of the newline-framed IPC channel
(`src/src/ipc/ipc_manager.cpp`).

Modelling conventions:
* C++ `double` is modelled as `ℚ` (exact real-valued arithmetic).
* `std::map<std::string, V>` is modelled as an association list
  `List (String × V)` kept in ascending key order by `aset`
  (mirroring `std::map` iteration order); `aerase` removes every
  entry with the given key (a `std::map` holds at most one).
* Database write-through (`db_manager->insertOrder` …), logging and
  timestamps are external collaborators with no effect on engine state
  and are not modelled; the wall-clock component of
  `generateOrderId` is likewise dropped (ids stay unique per engine).
-/

namespace TradingSystem

/-- Association-list lookup, mirroring `std::map::find`. -/
def alookup {α : Type} : List (String × α) → String → Option α
  | [], _ => none
  | (k, v) :: rest, key => if k = key then some v else alookup rest key

/-- Lexicographic comparison of char lists, the order `std::map`
iterates string keys in (byte order; identical for the ASCII symbol
names this program uses). -/
def charListLt : List Char → List Char → Bool
  | [], [] => false
  | [], _ :: _ => true
  | _ :: _, [] => false
  | a :: as, b :: bs => if a < b then true else if b < a then false else charListLt as bs

/-- Key order used for the association-list maps. -/
def keyLt (a b : String) : Bool := charListLt a.data b.data

/-- Association-list insert-or-assign at a key, keeping ascending key
order (mirroring `std::map::operator[]` assignment). -/
def aset {α : Type} : List (String × α) → String → α → List (String × α)
  | [], key, v => [(key, v)]
  | (k, w) :: rest, key, v =>
      if k = key then (key, v) :: rest
      else if keyLt key k then (key, v) :: (k, w) :: rest
      else (k, w) :: aset rest key v

/-- Association-list erase of a key, mirroring `std::map::erase`. -/
def aerase {α : Type} : List (String × α) → String → List (String × α)
  | [], _ => []
  | (k, w) :: rest, key => if k = key then aerase rest key else (k, w) :: aerase rest key

/-- The keys of an association list. -/
def akeys {α : Type} (m : List (String × α)) : List String := m.map Prod.fst

/-- `TradingMode` from `trading_engine.h`. -/
inductive TradingMode
  | PAPER
  | LIVE
deriving DecidableEq, Repr

/-- `Position` from `data_types.h` as used by the engine
(`entry_time` is a timestamp and is not modelled). -/
structure Position where
  symbol : String
  quantity : ℚ
  entry_price : ℚ
  current_price : ℚ
  unrealized_pnl : ℚ
deriving DecidableEq, Repr

/-- `Portfolio` from `trading_engine.h`. -/
structure Portfolio where
  cash_balance : ℚ
  total_value : ℚ
  positions : List (String × Position)
deriving DecidableEq, Repr

/-- `Order` from `data_types.h` as used by the engine
(`timestamp` is not modelled). -/
structure Order where
  order_id : String
  symbol : String
  side : String
  quantity : ℚ
  price : ℚ
  order_type : String
  status : String
deriving DecidableEq, Repr

/-- `TradingSignal` from `data_types.h` as used by the engine. -/
structure TradingSignal where
  symbol : String
  action : String
  confidence : ℚ
  suggested_position_size : ℚ
deriving DecidableEq, Repr

/-- The private state of `TradingEngine` (`trading_engine.h`). -/
structure EngineState where
  mode : TradingMode
  portfolio : Portfolio
  max_position_size : ℚ
  max_drawdown : ℚ
  stop_loss_percentage : ℚ
  take_profit_percentage : ℚ
  initial_balance : ℚ
  peak_balance : ℚ
  pending_orders : List (String × Order)
  filled_orders : List (String × Order)
  order_counter : Nat
deriving DecidableEq, Repr

/-- `Portfolio::getEquity`: cash plus quantity × current price summed
over all positions. -/
def getEquity (p : Portfolio) : ℚ :=
  p.cash_balance + (p.positions.map (fun kp => kp.2.quantity * kp.2.current_price)).sum

/-- The `TradingEngine` constructor: risk parameters are fixed at
max position 5000, max drawdown 0.20, stop-loss 2%, take-profit 5%;
cash, total value and peak balance start at the initial balance. -/
def mkEngine (mode : TradingMode) (initial : ℚ) : EngineState :=
  { mode := mode
    portfolio := { cash_balance := initial, total_value := initial, positions := [] }
    max_position_size := 5000
    max_drawdown := 1/5
    stop_loss_percentage := 1/50
    take_profit_percentage := 1/20
    initial_balance := initial
    peak_balance := initial
    pending_orders := []
    filled_orders := []
    order_counter := 0 }

/-- Which of the three checks of `TradingEngine::checkRiskLimits`
rejects an order, in source order. -/
inductive RejectReason
  | positionSize
  | insufficientCash
  | drawdown
deriving DecidableEq, Repr

/-- The if-chain of `TradingEngine::checkRiskLimits`, labelled with the
check that fires first (`none` = all checks pass).  Note `ℚ` division
by zero yields 0, so a zero `peak_balance` makes the drawdown check
pass; the C++ would produce a non-finite double there, a state no
claim exercises. -/
def riskRejectReason (s : EngineState) (quantity price : ℚ) : Option RejectReason :=
  let position_value := quantity * price
  if position_value > s.max_position_size then some RejectReason.positionSize
  else if position_value > s.portfolio.cash_balance then some RejectReason.insufficientCash
  else if (s.peak_balance - getEquity s.portfolio) / s.peak_balance > s.max_drawdown then
    some RejectReason.drawdown
  else none

/-- `TradingEngine::checkRiskLimits`. -/
def checkRiskLimits (s : EngineState) (quantity price : ℚ) : Bool :=
  (riskRejectReason s quantity price).isNone

/-- `TradingEngine::generateOrderId` minus the wall-clock component:
the incremented order counter keeps ids unique per engine. -/
def orderIdFor (s : EngineState) : String :=
  "ORD_" ++ toString (s.order_counter + 1)

/-- The realized P&L computed (and then discarded) by the SELL branch
of `TradingEngine::updatePortfolio`, line 233. -/
def realizedPnL (order : Order) (pos : Position) : ℚ :=
  order.quantity * (order.price - pos.entry_price)

/-- `TradingEngine::updatePortfolio`. -/
def updatePortfolio (s : EngineState) (order : Order) : EngineState :=
  if order.side = "BUY" then
    let cash := s.portfolio.cash_balance - order.quantity * order.price
    match alookup s.portfolio.positions order.symbol with
    | some pos =>
        let total_cost := pos.quantity * pos.entry_price + order.quantity * order.price
        let q := pos.quantity + order.quantity
        let pos' := { pos with quantity := q, entry_price := total_cost / q,
                               current_price := order.price }
        { s with portfolio := { s.portfolio with
            cash_balance := cash
            positions := aset s.portfolio.positions order.symbol pos' } }
    | none =>
        let pos' : Position :=
          { symbol := order.symbol, quantity := order.quantity,
            entry_price := order.price, current_price := order.price,
            unrealized_pnl := 0 }
        { s with portfolio := { s.portfolio with
            cash_balance := cash
            positions := aset s.portfolio.positions order.symbol pos' } }
  else if order.side = "SELL" then
    match alookup s.portfolio.positions order.symbol with
    | some pos =>
        let cash := s.portfolio.cash_balance + order.quantity * order.price
        let q := pos.quantity - order.quantity
        let positions' :=
          if q ≤ 0 then aerase s.portfolio.positions order.symbol
          else aset s.portfolio.positions order.symbol { pos with quantity := q }
        let portfolio' := { s.portfolio with cash_balance := cash, positions := positions' }
        let equity := getEquity portfolio'
        { s with portfolio := portfolio'
                 peak_balance := if equity > s.peak_balance then equity else s.peak_balance }
    | none => s
  else s

/-- `PaperTradingSimulator::simulateSlippage` with the constructor's
slippage rate 0.001: size-proportional, unfavorable to the trader. -/
def simulateSlippage (price quantity : ℚ) (side : String) : ℚ :=
  let slippage := price * (1/1000) * (1 + quantity / 100)
  if side = "BUY" then price + slippage else price - slippage

/-- `PaperTradingSimulator::simulateSpread` with the constructor's
spread rate 0.0005. -/
def simulateSpread (price : ℚ) : ℚ :=
  price * (1 + 1/2000)

/-- `TradingEngine::executeMarketOrder`: mark the order FILLED at the
given price, update the portfolio, move the order from the pending to
the filled table. -/
def executeMarketOrder (s : EngineState) (order : Order) (market_price : ℚ) : EngineState :=
  let o := { order with price := market_price, status := "FILLED" }
  let s1 := updatePortfolio s o
  { s1 with pending_orders := aerase s1.pending_orders o.order_id
            filled_orders := aset s1.filled_orders o.order_id o }

/-- `TradingEngine::simulateFill`: slippage then spread give the fill
price; MARKET orders execute immediately.  The LIMIT branch calls
`executeLimitOrder`, which is declared but has no implementation
anywhere in the source, and its random fill draw is outside this
embedding; it is unreachable from `placeOrder`, which simulates fills
only for MARKET orders, so the LIMIT branch leaves the state as is. -/
def simulateFill (s : EngineState) (order : Order) (market_price : ℚ) : EngineState :=
  let fill_price := simulateSpread (simulateSlippage market_price order.quantity order.side)
  if order.order_type = "MARKET" then executeMarketOrder s order fill_price
  else s

/-- `TradingEngine::placeOrder`: rejects non-positive quantity, then
risk limits; otherwise creates a PENDING order in the pending table
and, in paper mode for MARKET orders, simulates an immediate fill at
the provided price (or the 100000 default when the price is not
positive).  The C++ returns the order id, or `""` for a rejection;
`none` models `""`. -/
def placeOrder (s : EngineState) (symbol side : String) (quantity : ℚ)
    (order_type : String) (price : ℚ) : Option String × EngineState :=
  if quantity ≤ 0 then (none, s)
  else if checkRiskLimits s quantity price = false then (none, s)
  else
    let oid := orderIdFor s
    let order : Order :=
      { order_id := oid, symbol := symbol, side := side, quantity := quantity,
        price := price, order_type := order_type, status := "PENDING" }
    let s1 := { s with order_counter := s.order_counter + 1
                       pending_orders := aset s.pending_orders oid order }
    if s.mode = TradingMode.PAPER ∧ order_type = "MARKET" then
      (some oid, simulateFill s1 order (if price > 0 then price else 100000))
    else (some oid, s1)

/-- `TradingEngine::applyStopLoss` with the placed-order outcome made
explicit: when the loss fraction reaches the stop-loss threshold it
places a full-quantity SELL MARKET order at the current price; the
returned list holds the symbol of the order when one was accepted. -/
def applyStopLossStep (s : EngineState) (pos : Position) (current_price : ℚ) :
    List String × EngineState :=
  if s.stop_loss_percentage ≤ (pos.entry_price - current_price) / pos.entry_price then
    match placeOrder s pos.symbol "SELL" pos.quantity "MARKET" current_price with
    | (some _, s') => ([pos.symbol], s')
    | (none, s') => ([], s')
  else ([], s)

/-- `TradingEngine::applyTakeProfit`, analogous to `applyStopLossStep`.
The C++ passes the position by reference; when the preceding stop-loss
fill erased it, that reference dangles (undefined behavior).  The model
re-reads the map and skips an erased position — for positive entry
prices the two trigger conditions exclude each other, so this is the
only consistent reading. -/
def applyTakeProfitStep (s : EngineState) (sym : String) (current_price : ℚ) :
    List String × EngineState :=
  match alookup s.portfolio.positions sym with
  | none => ([], s)
  | some pos =>
    if s.take_profit_percentage ≤ (current_price - pos.entry_price) / pos.entry_price then
      match placeOrder s pos.symbol "SELL" pos.quantity "MARKET" current_price with
      | (some _, s') => ([pos.symbol], s')
      | (none, s') => ([], s')
    else ([], s)

/-- The refreshed position the loop body of
`TradingEngine::updatePositionPrices` writes: new current price and
recomputed unrealized P&L. -/
def pos1of (pos : Position) (p : ℚ) : Position :=
  { pos with current_price := p, unrealized_pnl := pos.quantity * (p - pos.entry_price) }

/-- The engine state after the loop body's in-place position refresh. -/
def posUpd (s : EngineState) (sym : String) (pos : Position) (p : ℚ) : EngineState :=
  { s with portfolio := { s.portfolio with
      positions := aset s.portfolio.positions sym (pos1of pos p) } }

/-- One iteration of the loop of `TradingEngine::updatePositionPrices`
for a single symbol: when the symbol is still held and has a price
update, refresh current price and unrealized P&L, then evaluate
stop-loss and take-profit. -/
def processSymbol (s : EngineState) (prices : List (String × ℚ)) (sym : String) :
    EngineState × List String :=
  match alookup s.portfolio.positions sym, alookup prices sym with
  | some pos, some p =>
      let s1 := posUpd s sym pos p
      let r1 := applyStopLossStep s1 (pos1of pos p) p
      let r2 := applyTakeProfitStep r1.2 sym p
      (r2.2, r1.1 ++ r2.1)
  | _, _ => (s, [])

/-- The loop of `TradingEngine::updatePositionPrices` over the held
symbols, threading the engine state and collecting the symbols of the
orders accepted along the way.  (The C++ iterates the `std::map` while
`updatePortfolio` may erase the element being visited — iterator
invalidation the model resolves by folding over the keys present at
entry; only the element being processed is ever erased.) -/
def updateLoop (prices : List (String × ℚ)) : EngineState → List String →
    EngineState × List String
  | s, [] => (s, [])
  | s, k :: rest =>
      let r1 := processSymbol s prices k
      let r2 := updateLoop prices r1.1 rest
      (r2.1, r1.2 ++ r2.2)

/-- `TradingEngine::updatePositionPrices` together with the list of
symbols for which it accepted a stop-loss/take-profit order. -/
def updatePositionPricesFull (s : EngineState) (prices : List (String × ℚ)) :
    EngineState × List String :=
  let r := updateLoop prices s (akeys s.portfolio.positions)
  ({ r.1 with portfolio := { r.1.portfolio with total_value := getEquity r.1.portfolio } },
   r.2)

/-- `TradingEngine::updatePositionPrices`. -/
def updatePositionPrices (s : EngineState) (prices : List (String × ℚ)) : EngineState :=
  (updatePositionPricesFull s prices).1

/-- The symbols of the orders accepted during one
`updatePositionPrices` call, in placement order. -/
def placedSymbols (s : EngineState) (prices : List (String × ℚ)) : List String :=
  (updatePositionPricesFull s prices).2

/-- `TradingEngine::calculatePositionSize`: suggested size scaled by
confidence, capped by 95% of cash and by the max position size. -/
def calculatePositionSize (s : EngineState) (signal : TradingSignal) : ℚ :=
  min (min (signal.suggested_position_size * signal.confidence)
           (s.portfolio.cash_balance * (19/20)))
      s.max_position_size

/-- `TradingEngine::processTradingSignal`: skip non-positive sizes;
BUY with no held position places a sized BUY MARKET order (quantity =
size / 100000, price defaulted to 0); SELL with a held position places
a full-quantity SELL MARKET order; anything else is a no-op. -/
def processTradingSignal (s : EngineState) (signal : TradingSignal) : EngineState :=
  let position_size := calculatePositionSize s signal
  if position_size ≤ 0 then s
  else
    let has_position :=
      match alookup s.portfolio.positions signal.symbol with
      | some pos => decide (pos.quantity > 0)
      | none => false
    if signal.action = "BUY" ∧ has_position = false then
      (placeOrder s signal.symbol "BUY" (position_size / 100000) "MARKET" 0).2
    else if signal.action = "SELL" ∧ has_position = true then
      match alookup s.portfolio.positions signal.symbol with
      | some pos => (placeOrder s signal.symbol "SELL" pos.quantity "MARKET" 0).2
      | none => s
    else s

/-- Modelled from the spec: `TradingEngine::cancelOrder` is declared in
the trading-engine header (line 471 of `src/src/main.cpp`) but has no
implementation anywhere in the source.  Spec §5: "the Engine's
`cancelOrder` removes a PENDING order from the table only — it cannot
retract an already-recorded fill."  The model removes the order from
the pending table exactly when it is there with status PENDING, and
touches nothing else. -/
def cancelOrder (s : EngineState) (order_id : String) : Bool × EngineState :=
  match alookup s.pending_orders order_id with
  | some o =>
      if o.status = "PENDING" then
        (true, { s with pending_orders := aerase s.pending_orders order_id })
      else (false, s)
  | none => (false, s)

/-!
IPC channel (`src/src/ipc/ipc_manager.cpp`).  Messages are byte/char
lists.  `IPCManager::sendMessage` appends the `'\n'` delimiter and
writes the frame.  `IPCManager::readerLoop` reads the pipe in chunks of
at most 4095 bytes; each chunk passes through
`std::string message(buffer)` on the NUL-terminated buffer, which cuts
the chunk at its first NUL byte, discarding everything after it.  The
surviving text is split on `'\n'` and each nonempty line is pushed to
the delivery FIFO (`if (!msg.empty())` drops empty lines); the
unterminated tail of each chunk is discarded when the chunk ends
(`message.erase(0, pos + 1)` loop leaves it in a local that goes out
of scope).  `IPCManager::receiveMessage` pops the FIFO front,
returning the empty string on timeout.
-/

/-- `IPCManager::sendMessage` framing: append the newline delimiter. -/
def frame (m : List Char) : List Char := m ++ ['\n']

/-- `std::string message(buffer)` on the NUL-terminated read buffer
(`ipc_manager.cpp` lines 131-132): the chunk is cut at its first NUL
byte and the rest of the read data is lost. -/
def truncAtNul : List Char → List Char
  | [] => []
  | c :: rest => if c = '\x00' then [] else c :: truncAtNul rest

/-- The split loop of `IPCManager::readerLoop` on one read buffer:
every newline-terminated line is produced; the unterminated tail is
discarded. -/
def splitLoop : List Char → List Char → List (List Char)
  | [], _ => []
  | c :: rest, acc =>
      if c = '\n' then acc.reverse :: splitLoop rest []
      else splitLoop rest (c :: acc)

/-- The newline-terminated lines of one read buffer. -/
def completeLines (chunk : List Char) : List (List Char) := splitLoop chunk []

/-- What `IPCManager::readerLoop` pushes to the delivery FIFO for a
sequence of read buffers: each chunk is NUL-truncated, then its
nonempty complete lines are delivered in order. -/
def readerDeliver (chunks : List (List Char)) : List (List Char) :=
  chunks.flatMap (fun c => (completeLines (truncAtNul c)).filter (fun l => l ≠ []))

/-! ### Association-list lemmas -/

theorem alookup_aset {α : Type} (m : List (String × α)) (k x : String) (v : α) :
    alookup (aset m k v) x = if k = x then some v else alookup m x := by
  induction m with
  | nil => simp [aset, alookup]
  | cons hd tl ih =>
      obtain ⟨k', w⟩ := hd
      by_cases h1 : k' = k
      · subst h1
        by_cases h2 : k' = x <;> simp [aset, alookup, h2]
      · cases h2 : keyLt k k'
        · simp only [aset, if_neg h1, h2, Bool.false_eq_true, if_false, alookup, ih]
          by_cases h3 : k' = x
          · subst h3
            have h4 : k ≠ k' := fun h => h1 h.symm
            simp [h4]
          · simp [h3]
        · simp [aset, h1, h2, alookup]

theorem alookup_aerase {α : Type} (m : List (String × α)) (k x : String) :
    alookup (aerase m k) x = if k = x then none else alookup m x := by
  induction m with
  | nil => simp [aerase, alookup]
  | cons hd tl ih =>
      obtain ⟨k', w⟩ := hd
      by_cases h1 : k' = k
      · subst h1
        by_cases h2 : k' = x
        · subst h2; simp [aerase, ih]
        · have h4 : k' ≠ x := h2
          simp [aerase, alookup, h4, ih]
      · by_cases h2 : k' = x
        · subst h2
          have h4 : k ≠ k' := fun h => h1 h.symm
          simp [aerase, h1, alookup, h4]
        · simp [aerase, h1, alookup, h2, ih]

theorem alookup_aset_self {α : Type} (m : List (String × α)) (k : String) (v : α) :
    alookup (aset m k v) k = some v := by
  simp [alookup_aset]

theorem alookup_aerase_self {α : Type} (m : List (String × α)) (k : String) :
    alookup (aerase m k) k = none := by
  simp [alookup_aerase]

theorem alookup_mem {α : Type} {m : List (String × α)} {k : String} {v : α}
    (h : alookup m k = some v) : (k, v) ∈ m := by
  induction m with
  | nil => simp [alookup] at h
  | cons hd tl ih =>
      obtain ⟨k', w⟩ := hd
      by_cases hk : k' = k
      · subst hk
        simp [alookup] at h
        subst h
        exact List.mem_cons_self _ _
      · simp [alookup, hk] at h
        exact List.mem_cons_of_mem _ (ih h)

theorem mem_akeys_iff_alookup {α : Type} (m : List (String × α)) (x : String) :
    x ∈ akeys m ↔ (alookup m x).isSome = true := by
  induction m with
  | nil => simp [akeys, alookup]
  | cons hd tl ih =>
      obtain ⟨k', w⟩ := hd
      by_cases h : k' = x
      · subst h; simp [akeys, alookup]
      · simp only [akeys, List.map_cons, List.mem_cons]
        rw [show alookup ((k', w) :: tl) x = alookup tl x by simp [alookup, h]]
        constructor
        · intro hx
          rcases hx with hx | hx
          · exact absurd hx.symm h
          · exact ih.mp hx
        · intro hx
          exact Or.inr (ih.mpr hx)

theorem alookup_eq_none_of_not_mem_akeys {α : Type} {m : List (String × α)} {k : String}
    (h : k ∉ akeys m) : alookup m k = none := by
  rw [mem_akeys_iff_alookup] at h
  cases hcase : alookup m k with
  | none => rfl
  | some v => rw [hcase] at h; simp at h

theorem mem_akeys_of_alookup {α : Type} {m : List (String × α)} {k : String} {v : α}
    (h : alookup m k = some v) : k ∈ akeys m := by
  rw [mem_akeys_iff_alookup, h]; rfl

theorem mem_akeys_aset {α : Type} {m : List (String × α)} {k x : String} {v : α}
    (h : x ∈ akeys (aset m k v)) : x = k ∨ x ∈ akeys m := by
  rw [mem_akeys_iff_alookup, alookup_aset] at h
  by_cases h1 : k = x
  · exact Or.inl h1.symm
  · rw [if_neg h1] at h
    exact Or.inr ((mem_akeys_iff_alookup m x).mpr h)

theorem mem_akeys_aerase {α : Type} {m : List (String × α)} {k x : String}
    (h : x ∈ akeys (aerase m k)) : x ∈ akeys m := by
  rw [mem_akeys_iff_alookup, alookup_aerase] at h
  by_cases h1 : k = x
  · rw [if_pos h1] at h; simp at h
  · rw [if_neg h1] at h
    exact (mem_akeys_iff_alookup m x).mpr h

theorem not_mem_akeys_aerase_self {α : Type} (m : List (String × α)) (k : String) :
    k ∉ akeys (aerase m k) := by
  rw [mem_akeys_iff_alookup, alookup_aerase_self]
  simp

/-! ### Claim theorems -/

/-- Claim C1: for every BUY fill processed by `updatePortfolio` with
quantity q > 0 and fill price p, the cash balance afterwards equals
the cash balance before minus q × p. -/
theorem buy_fill_cash (s : EngineState) (o : Order)
    (hside : o.side = "BUY") (hq : 0 < o.quantity) :
    (updatePortfolio s o).portfolio.cash_balance =
      s.portfolio.cash_balance - o.quantity * o.price := by
  unfold updatePortfolio
  rw [hside]
  simp only [if_pos rfl]
  cases alookup s.portfolio.positions o.symbol <;> simp

/-- Witness for C1: a concrete BUY fill of 2 BTC at price 100 from the
freshly constructed engine. -/
theorem buy_fill_cash_witness :
    (0 : ℚ) < 2 ∧
    (updatePortfolio (mkEngine TradingMode.PAPER 1000)
        ⟨"o1", "BTC", "BUY", 2, 100, "MARKET", "FILLED"⟩).portfolio.cash_balance =
      (mkEngine TradingMode.PAPER 1000).portfolio.cash_balance - 2 * 100 :=
  ⟨by norm_num, buy_fill_cash (mkEngine TradingMode.PAPER 1000)
    ⟨"o1", "BTC", "BUY", 2, 100, "MARKET", "FILLED"⟩ rfl (by norm_num)⟩

/-- Claim C2: from a state with no position in a symbol, two sequential
BUY fills (q1, p1) then (q2, p2) with q1, q2 > 0 leave a position of
quantity q1 + q2 and entry price (q1·p1 + q2·p2) / (q1 + q2). -/
theorem two_buy_fills_average_entry (s : EngineState) (sym : String) (q1 p1 q2 p2 : ℚ)
    (hnone : alookup s.portfolio.positions sym = none)
    (h1 : 0 < q1) (h2 : 0 < q2) :
    let s1 := updatePortfolio s ⟨"o1", sym, "BUY", q1, p1, "MARKET", "FILLED"⟩
    let s2 := updatePortfolio s1 ⟨"o2", sym, "BUY", q2, p2, "MARKET", "FILLED"⟩
    ∃ pos, alookup s2.portfolio.positions sym = some pos ∧
      pos.quantity = q1 + q2 ∧
      pos.entry_price = (q1 * p1 + q2 * p2) / (q1 + q2) := by
  intro s1 s2
  have hs1 : s1.portfolio.positions =
      aset s.portfolio.positions sym ⟨sym, q1, p1, p1, 0⟩ := by
    simp only [s1, updatePortfolio]
    rw [hnone]
    simp
  have hfind1 : alookup s1.portfolio.positions sym = some ⟨sym, q1, p1, p1, 0⟩ := by
    rw [hs1]; exact alookup_aset_self _ _ _
  refine ⟨⟨sym, q1 + q2, (q1 * p1 + q2 * p2) / (q1 + q2), p2, 0⟩, ?_, rfl, rfl⟩
  simp only [s2, updatePortfolio]
  rw [hfind1]
  simp only [if_pos rfl]
  simpa using alookup_aset_self _ _ _

/-- Witness for C2: fills (1, 100) then (3, 200) give quantity 4 and
entry price 175. -/
theorem two_buy_fills_average_entry_witness :
    alookup (mkEngine TradingMode.PAPER 1000).portfolio.positions "BTC" = none ∧
    ∃ pos,
      alookup (updatePortfolio
          (updatePortfolio (mkEngine TradingMode.PAPER 1000)
            ⟨"o1", "BTC", "BUY", 1, 100, "MARKET", "FILLED"⟩)
          ⟨"o2", "BTC", "BUY", 3, 200, "MARKET", "FILLED"⟩).portfolio.positions "BTC" =
        some pos ∧
      pos.quantity = 1 + 3 ∧
      pos.entry_price = (1 * 100 + 3 * 200) / (1 + 3) :=
  ⟨rfl, two_buy_fills_average_entry (mkEngine TradingMode.PAPER 1000) "BTC" 1 100 3 200
    rfl (by norm_num) (by norm_num)⟩

/-- Claim C3: a SELL fill of the entire quantity of an existing
position credits cash by quantity × fill price, removes the position,
and the realized P&L the code computes for the fill equals
quantity × (fill price − entry price). -/
theorem sell_full_close (s : EngineState) (o : Order) (pos : Position)
    (hside : o.side = "SELL")
    (hfind : alookup s.portfolio.positions o.symbol = some pos)
    (hq : o.quantity = pos.quantity) (hqpos : 0 < o.quantity) :
    (updatePortfolio s o).portfolio.cash_balance =
      s.portfolio.cash_balance + o.quantity * o.price ∧
    alookup (updatePortfolio s o).portfolio.positions o.symbol = none ∧
    realizedPnL o pos = o.quantity * (o.price - pos.entry_price) := by
  refine ⟨?_, ?_, rfl⟩ <;>
  · unfold updatePortfolio
    rw [hside]
    have hnb : ("SELL" : String) ≠ "BUY" := by decide
    simp only [hnb, if_false, if_pos rfl]
    rw [hfind]
    have hz : pos.quantity - o.quantity ≤ 0 := by rw [hq]; simp
    simp [hz, alookup_aerase_self]

/-- Witness for C3: fully closing a 2-unit position entered at 100 by a
SELL at 150. -/
theorem sell_full_close_witness :
    (updatePortfolio
        ⟨TradingMode.PAPER,
         ⟨500, 800, [("BTC", ⟨"BTC", 2, 100, 150, 0⟩)]⟩,
         5000, 1/5, 1/50, 1/20, 500, 800, [], [], 0⟩
        ⟨"o1", "BTC", "SELL", 2, 150, "MARKET", "FILLED"⟩).portfolio.cash_balance =
      (500 : ℚ) + 2 * 150 ∧
    alookup (updatePortfolio
        ⟨TradingMode.PAPER,
         ⟨500, 800, [("BTC", ⟨"BTC", 2, 100, 150, 0⟩)]⟩,
         5000, 1/5, 1/50, 1/20, 500, 800, [], [], 0⟩
        ⟨"o1", "BTC", "SELL", 2, 150, "MARKET", "FILLED"⟩).portfolio.positions "BTC" =
      none ∧
    realizedPnL ⟨"o1", "BTC", "SELL", 2, 150, "MARKET", "FILLED"⟩ ⟨"BTC", 2, 100, 150, 0⟩ =
      2 * (150 - 100) :=
  sell_full_close
    ⟨TradingMode.PAPER, ⟨500, 800, [("BTC", ⟨"BTC", 2, 100, 150, 0⟩)]⟩,
     5000, 1/5, 1/50, 1/20, 500, 800, [], [], 0⟩
    ⟨"o1", "BTC", "SELL", 2, 150, "MARKET", "FILLED"⟩
    ⟨"BTC", 2, 100, 150, 0⟩ rfl rfl rfl (by norm_num)

/-- A SELL order for a symbol with no held position leaves the engine
state untouched by `updatePortfolio` (the SELL branch is guarded by a
map lookup). -/
theorem updatePortfolio_sell_no_position (s : EngineState) (o : Order)
    (hside : o.side = "SELL")
    (hnp : alookup s.portfolio.positions o.symbol = none) :
    updatePortfolio s o = s := by
  unfold updatePortfolio
  rw [hside, hnp]
  simp

/-- Claim C9: in paper mode, a SELL MARKET order for a symbol with no
existing position that passes validation and risk checks is still
FILLED (it lands in the filled-order table with status FILLED), yet
cash and the positions map are exactly unchanged. -/
theorem sell_without_position_filled_but_frame (s : EngineState) (sym : String) (q pr : ℚ)
    (hmode : s.mode = TradingMode.PAPER)
    (hnp : alookup s.portfolio.positions sym = none)
    (hq : 0 < q)
    (hrisk : checkRiskLimits s q pr = true) :
    (placeOrder s sym "SELL" q "MARKET" pr).1.isSome = true ∧
    (placeOrder s sym "SELL" q "MARKET" pr).2.portfolio.cash_balance =
      s.portfolio.cash_balance ∧
    (placeOrder s sym "SELL" q "MARKET" pr).2.portfolio.positions =
      s.portfolio.positions ∧
    ∃ o, alookup (placeOrder s sym "SELL" q "MARKET" pr).2.filled_orders (orderIdFor s) =
      some o ∧ o.status = "FILLED" := by
  have hql : ¬ q ≤ 0 := not_le.mpr hq
  simp only [placeOrder, if_neg hql, hrisk, hmode]
  simp only [simulateFill, executeMarketOrder]
  rw [updatePortfolio_sell_no_position _ _ rfl (by simpa using hnp)]
  refine ⟨rfl, rfl, rfl, ?_⟩
  exact ⟨_, alookup_aset_self _ _ _, rfl⟩

/-- Witness for C9: selling 1 unit of an unheld symbol from the fresh
engine. -/
theorem sell_without_position_filled_but_frame_witness :
    (placeOrder (mkEngine TradingMode.PAPER 1000) "ETH" "SELL" 1 "MARKET" 10).1.isSome
      = true ∧
    (placeOrder (mkEngine TradingMode.PAPER 1000) "ETH" "SELL" 1 "MARKET" 10).2.portfolio.cash_balance =
      (mkEngine TradingMode.PAPER 1000).portfolio.cash_balance ∧
    (placeOrder (mkEngine TradingMode.PAPER 1000) "ETH" "SELL" 1 "MARKET" 10).2.portfolio.positions =
      (mkEngine TradingMode.PAPER 1000).portfolio.positions ∧
    ∃ o, alookup (placeOrder (mkEngine TradingMode.PAPER 1000) "ETH" "SELL" 1 "MARKET" 10).2.filled_orders
      (orderIdFor (mkEngine TradingMode.PAPER 1000)) = some o ∧ o.status = "FILLED" :=
  sell_without_position_filled_but_frame (mkEngine TradingMode.PAPER 1000) "ETH" 1 10
    rfl rfl (by norm_num)
    (by norm_num [checkRiskLimits, riskRejectReason, getEquity, mkEngine])

/-- Claim C10: `placeOrder` returns the empty id (modelled `none`)
exactly for a non-positive quantity or a failed risk check, and a
rejected call leaves the entire engine state — portfolio, pending and
filled tables included — exactly as it was. -/
theorem place_order_reject_atomic (s : EngineState) (sym side : String) (q : ℚ)
    (ty : String) (pr : ℚ) :
    ((placeOrder s sym side q ty pr).1 = none ↔
      (q ≤ 0 ∨ checkRiskLimits s q pr = false)) ∧
    ((placeOrder s sym side q ty pr).1 = none → (placeOrder s sym side q ty pr).2 = s) := by
  by_cases h1 : q ≤ 0
  · simp [placeOrder, h1]
  · by_cases h2 : checkRiskLimits s q pr = false
    · simp [placeOrder, h1, h2]
    · have h2' : checkRiskLimits s q pr = true := by
        revert h2; cases checkRiskLimits s q pr <;> simp
      have hoid : (placeOrder s sym side q ty pr).1 = some (orderIdFor s) := by
        simp only [placeOrder, if_neg h1, h2']
        by_cases hm : s.mode = TradingMode.PAPER ∧ ty = "MARKET" <;> simp [hm]
      rw [hoid]
      simp [h1, h2']

/-- Witness for C10: a BUY with quantity −1 is rejected and the state
is exactly the fresh engine it started from. -/
theorem place_order_reject_atomic_witness :
    (placeOrder (mkEngine TradingMode.PAPER 1000) "BTC" "BUY" (-1) "MARKET" 10).2 =
      mkEngine TradingMode.PAPER 1000 :=
  (place_order_reject_atomic (mkEngine TradingMode.PAPER 1000) "BTC" "BUY" (-1) "MARKET" 10).2
    ((place_order_reject_atomic (mkEngine TradingMode.PAPER 1000) "BTC" "BUY" (-1) "MARKET" 10).1.mpr
      (Or.inl (by norm_num)))

/-! ### Claim C4: the boundary scenario -/

/-- The engine as constructed for the §8 scenario: paper mode,
initial balance 10000 (so cash 10000, peak 10000,
max position size 5000, max drawdown 0.20). -/
def scenarioState0 : EngineState := mkEngine TradingMode.PAPER 10000

/-- The engine after the first scenario order
`placeOrder(BUY, "BTC", 0.05, MARKET)` at price 100000. -/
def scenarioState1 : EngineState :=
  (placeOrder scenarioState0 "BTC" "BUY" (1/20) "MARKET" 100000).2

/-- Claim C4 (amended): in the §8 scenario the first BUY of 0.05 BTC at
price 100000 (notional exactly 5000) passes every risk check and
returns an order id, and the subsequent BUY of 0.1 BTC (notional
10000) is rejected — but the check that rejects it is the
position-size limit (10000 > 5000), which runs before the cash check
in `checkRiskLimits`. -/
theorem boundary_scenario :
    (placeOrder scenarioState0 "BTC" "BUY" (1/20) "MARKET" 100000).1.isSome = true ∧
    (placeOrder scenarioState1 "BTC" "BUY" (1/10) "MARKET" 100000).1 = none ∧
    riskRejectReason scenarioState1 (1/10) 100000 = some RejectReason.positionSize := by
  refine ⟨?_, ?_, ?_⟩ <;>
    norm_num [placeOrder, checkRiskLimits, riskRejectReason, getEquity, mkEngine,
      scenarioState0, scenarioState1, simulateFill, executeMarketOrder, updatePortfolio,
      simulateSlippage, simulateSpread, alookup, aset, aerase, orderIdFor]

/-- Counterexample to C4 as stated: the rejecting check for the second
scenario order is not the insufficient-cash check. -/
theorem boundary_scenario_reject_is_not_cash :
    riskRejectReason scenarioState1 (1/10) 100000 ≠ some RejectReason.insufficientCash := by
  have h : riskRejectReason scenarioState1 (1/10) 100000 =
      some RejectReason.positionSize := by
    norm_num [placeOrder, checkRiskLimits, riskRejectReason, getEquity, mkEngine,
      scenarioState0, scenarioState1, simulateFill, executeMarketOrder, updatePortfolio,
      simulateSlippage, simulateSpread, alookup, aset, aerase, orderIdFor]
  rw [h]
  simp

/-! ### Claim C6: IPC round trip -/

/-- Splitting a newline-terminated buffer whose payload has no embedded
newline yields exactly that payload (plus whatever was accumulated). -/
theorem splitLoop_append_newline (m : List Char) (acc : List Char) (h : '\n' ∉ m) :
    splitLoop (m ++ ['\n']) acc = [acc.reverse ++ m] := by
  induction m generalizing acc with
  | nil => simp [splitLoop]
  | cons c rest ih =>
      have hc : ¬ c = '\n' := fun hh => h (hh ▸ List.mem_cons_self c rest)
      have hrest : '\n' ∉ rest := fun hh => h (List.mem_cons_of_mem _ hh)
      simp [splitLoop, hc, ih _ hrest]

/-- A chunk with no NUL byte survives `std::string message(buffer)`
unchanged. -/
theorem truncAtNul_of_no_nul (m : List Char) (h : '\x00' ∉ m) :
    truncAtNul m = m := by
  induction m with
  | nil => rfl
  | cons c rest ih =>
      have hc : ¬ c = '\x00' := fun hh => h (hh ▸ List.mem_cons_self c rest)
      have hrest : '\x00' ∉ rest := fun hh => h (List.mem_cons_of_mem _ hh)
      simp [truncAtNul, hc, ih hrest]

/-- Claim C6 (amended): for every nonempty message with no embedded
newline and no NUL byte whose frame fits in a single 4095-byte read of
the reader loop, sending then receiving yields exactly the message. -/
theorem message_roundtrip (m : List Char) (hne : m ≠ []) (hnl : '\n' ∉ m)
    (hnul : '\x00' ∉ m) (hlen : m.length ≤ 4094) :
    readerDeliver [frame m] = [m] := by
  have hnul2 : '\x00' ∉ m ++ ['\n'] := by
    intro hmem
    rcases List.mem_append.mp hmem with h | h
    · exact hnul h
    · simp at h
  unfold readerDeliver frame completeLines
  simp [truncAtNul_of_no_nul _ hnul2, splitLoop_append_newline m [] hnl, hne]

/-- Witness for C6: the two-character message "hi". -/
theorem message_roundtrip_witness :
    readerDeliver [frame ['h', 'i']] = [['h', 'i']] :=
  message_roundtrip ['h', 'i'] (by decide) (by decide) (by decide) (by decide)

/-- Counterexample to C6 as stated: the empty message is framed as a
bare newline, which the reader loop's `if (!msg.empty())` silently
drops — the round trip delivers nothing instead of the empty
message. -/
theorem message_roundtrip_empty_fails :
    readerDeliver [frame ([] : List Char)] ≠ [([] : List Char)] := by decide

/-! ### Claim C8: cancelOrder -/

/-- Claim C8: `cancelOrder` removes the order from the pending table
exactly when it sits there with status PENDING, never touches the
filled-order table or the portfolio, and a failed cancellation leaves
the whole state unchanged. -/
theorem cancel_order_pending_only (s : EngineState) (oid : String) :
    (cancelOrder s oid).2.filled_orders = s.filled_orders ∧
    (cancelOrder s oid).2.portfolio = s.portfolio ∧
    ((cancelOrder s oid).1 = true ↔
      ∃ o, alookup s.pending_orders oid = some o ∧ o.status = "PENDING") ∧
    ((cancelOrder s oid).1 = true →
      alookup (cancelOrder s oid).2.pending_orders oid = none) ∧
    ((cancelOrder s oid).1 = false → (cancelOrder s oid).2 = s) := by
  unfold cancelOrder
  cases hcase : alookup s.pending_orders oid with
  | none => simp [hcase]
  | some o =>
      by_cases hst : o.status = "PENDING" <;>
        simp [hcase, hst, alookup_aerase_self]

/-- Witness for C8: cancelling the only pending order of a concrete
state removes it and touches nothing else. -/
theorem cancel_order_pending_only_witness :
    (cancelOrder
        ⟨TradingMode.PAPER, ⟨100, 100, []⟩, 5000, 1/5, 1/50, 1/20, 100, 100,
         [("ORD_1", ⟨"ORD_1", "BTC", "BUY", 1, 10, "LIMIT", "PENDING"⟩)], [], 1⟩
        "ORD_1").2.filled_orders = [] ∧
    (cancelOrder
        ⟨TradingMode.PAPER, ⟨100, 100, []⟩, 5000, 1/5, 1/50, 1/20, 100, 100,
         [("ORD_1", ⟨"ORD_1", "BTC", "BUY", 1, 10, "LIMIT", "PENDING"⟩)], [], 1⟩
        "ORD_1").1 = true := by
  have h := cancel_order_pending_only
    ⟨TradingMode.PAPER, ⟨100, 100, []⟩, 5000, 1/5, 1/50, 1/20, 100, 100,
     [("ORD_1", ⟨"ORD_1", "BTC", "BUY", 1, 10, "LIMIT", "PENDING"⟩)], [], 1⟩
    "ORD_1"
  exact ⟨h.1, h.2.2.1.mpr ⟨_, rfl, rfl⟩⟩

/-! ### Claim C7: peak equity never decreases -/

theorem le_if_gt (a b : ℚ) : a ≤ if b > a then b else a := by
  split
  · exact le_of_lt (by assumption)
  · exact le_refl _

theorem peak_updatePortfolio (s : EngineState) (o : Order) :
    s.peak_balance ≤ (updatePortfolio s o).peak_balance := by
  unfold updatePortfolio
  split
  · cases alookup s.portfolio.positions o.symbol <;> simp
  · split
    · cases alookup s.portfolio.positions o.symbol with
      | none => exact le_refl _
      | some pos =>
          dsimp only
          split <;> exact le_if_gt _ _
    · exact le_refl _

theorem peak_executeMarketOrder (s : EngineState) (o : Order) (mp : ℚ) :
    s.peak_balance ≤ (executeMarketOrder s o mp).peak_balance := by
  unfold executeMarketOrder
  exact peak_updatePortfolio s _

theorem peak_simulateFill (s : EngineState) (o : Order) (mp : ℚ) :
    s.peak_balance ≤ (simulateFill s o mp).peak_balance := by
  unfold simulateFill
  split
  · exact peak_executeMarketOrder s _ _
  · exact le_refl _

theorem peak_placeOrder (s : EngineState) (sym side : String) (q : ℚ)
    (ty : String) (pr : ℚ) :
    s.peak_balance ≤ ((placeOrder s sym side q ty pr).2).peak_balance := by
  unfold placeOrder
  split
  · exact le_refl _
  · split
    · exact le_refl _
    · split
      · exact peak_simulateFill _ _ _
      · exact le_refl _

theorem peak_applyStopLossStep (s : EngineState) (pos : Position) (p : ℚ) :
    s.peak_balance ≤ ((applyStopLossStep s pos p).2).peak_balance := by
  unfold applyStopLossStep
  split
  · rcases hpo : placeOrder s pos.symbol "SELL" pos.quantity "MARKET" p with ⟨r, s'⟩
    have hp := peak_placeOrder s pos.symbol "SELL" pos.quantity "MARKET" p
    rw [hpo] at hp
    cases r <;> simpa using hp
  · exact le_refl _

theorem peak_applyTakeProfitStep (s : EngineState) (sym : String) (p : ℚ) :
    s.peak_balance ≤ ((applyTakeProfitStep s sym p).2).peak_balance := by
  unfold applyTakeProfitStep
  split
  · exact le_refl _
  · next pos heq =>
      split
      · rcases hpo : placeOrder s pos.symbol "SELL" pos.quantity "MARKET" p with ⟨r, s'⟩
        have hp := peak_placeOrder s pos.symbol "SELL" pos.quantity "MARKET" p
        rw [hpo] at hp
        cases r <;> simpa using hp
      · exact le_refl _

set_option maxHeartbeats 2000000 in
theorem peak_processSymbol (s : EngineState) (prices : List (String × ℚ)) (sym : String) :
    s.peak_balance ≤ ((processSymbol s prices sym).1).peak_balance := by
  unfold processSymbol
  split
  · dsimp only
    refine le_trans ?_ (peak_applyTakeProfitStep _ sym _)
    exact peak_applyStopLossStep _ _ _
  · exact le_refl _

theorem peak_updateLoop (prices : List (String × ℚ)) (l : List String) :
    ∀ s : EngineState, s.peak_balance ≤ ((updateLoop prices s l).1).peak_balance := by
  induction l with
  | nil => intro s; exact le_refl _
  | cons k rest ih =>
      intro s
      unfold updateLoop
      dsimp only
      exact le_trans (peak_processSymbol s prices k) (ih _)

theorem peak_updatePositionPrices (s : EngineState) (prices : List (String × ℚ)) :
    s.peak_balance ≤ (updatePositionPrices s prices).peak_balance := by
  unfold updatePositionPrices updatePositionPricesFull
  dsimp only
  exact peak_updateLoop prices _ s

theorem peak_processTradingSignal (s : EngineState) (sig : TradingSignal) :
    s.peak_balance ≤ (processTradingSignal s sig).peak_balance := by
  rcases h1 : alookup s.portfolio.positions sig.symbol with _ | pos <;>
    simp only [processTradingSignal, h1] <;>
    repeat' split
  all_goals first
    | exact le_refl _
    | exact peak_placeOrder _ _ _ _ _ _

/-- Claim C7: every engine operation that mutates the portfolio —
`updatePortfolio`, `simulateFill` (and through it `placeOrder`),
`updatePositionPrices` and `processTradingSignal` — leaves the
recorded peak balance at least as large as before (only the SELL
branch of `updatePortfolio` touches it, and only with
`max(peak, equity)`). -/
theorem peak_balance_monotone :
    (∀ (s : EngineState) (o : Order),
      s.peak_balance ≤ (updatePortfolio s o).peak_balance) ∧
    (∀ (s : EngineState) (o : Order) (mp : ℚ),
      s.peak_balance ≤ (simulateFill s o mp).peak_balance) ∧
    (∀ (s : EngineState) (sym side : String) (q : ℚ) (ty : String) (pr : ℚ),
      s.peak_balance ≤ ((placeOrder s sym side q ty pr).2).peak_balance) ∧
    (∀ (s : EngineState) (prices : List (String × ℚ)),
      s.peak_balance ≤ (updatePositionPrices s prices).peak_balance) ∧
    (∀ (s : EngineState) (sig : TradingSignal),
      s.peak_balance ≤ (processTradingSignal s sig).peak_balance) :=
  ⟨peak_updatePortfolio, peak_simulateFill, peak_placeOrder,
   peak_updatePositionPrices, peak_processTradingSignal⟩

/-! ### Claim C5: machinery

Stop-loss/take-profit idempotence.  `WFpos` is the map well-formedness
every reachable portfolio satisfies: each entry's `symbol` field equals
its key (the C++ always stores `positions[pos.symbol] = pos`). -/

def WFpos (ps : List (String × Position)) : Prop :=
  ∀ kp ∈ ps, (Prod.snd kp).symbol = kp.1

instance (ps : List (String × Position)) : Decidable (WFpos ps) := by
  unfold WFpos; infer_instance

theorem WFpos_alookup {ps : List (String × Position)} {k : String} {pos : Position}
    (hwf : WFpos ps) (h : alookup ps k = some pos) : pos.symbol = k :=
  hwf (k, pos) (alookup_mem h)

theorem WFpos_tail {hd : String × Position} {tl : List (String × Position)}
    (hwf : WFpos (hd :: tl)) : WFpos tl :=
  fun kp hkp => hwf kp (List.mem_cons_of_mem _ hkp)

theorem WFpos_of_forall {ps : List (String × Position)}
    (h : ∀ a b, (a, b) ∈ ps → Position.symbol b = a) : WFpos ps :=
  fun kp hkp => h kp.1 kp.2 hkp

theorem WFpos_mem {ps : List (String × Position)} (hwf : WFpos ps) {a : String}
    {b : Position} (h : (a, b) ∈ ps) : Position.symbol b = a :=
  hwf (a, b) h

theorem WFpos_aset {ps : List (String × Position)} {k : String} {v : Position}
    (hwf : WFpos ps) (hv : v.symbol = k) : WFpos (aset ps k v) := by
  induction ps with
  | nil =>
      refine WFpos_of_forall ?_
      intro a b hab
      have hab2 : (a, b) ∈ [(k, v)] := by simpa [aset] using hab
      have hh := List.mem_singleton.mp hab2
      rw [show b = v from congrArg Prod.snd hh,
          show a = k from congrArg Prod.fst hh]
      exact hv
  | cons hd tl ih =>
      obtain ⟨k2, w⟩ := hd
      have hwf_tl : WFpos tl := WFpos_tail hwf
      refine WFpos_of_forall ?_
      intro a b hab
      by_cases h1 : k2 = k
      · have hab2 : (a, b) ∈ (k, v) :: tl := by simpa [aset, h1] using hab
        cases List.mem_cons.mp hab2 with
        | inl hh =>
            rw [show b = v from congrArg Prod.snd hh,
                show a = k from congrArg Prod.fst hh]
            exact hv
        | inr hh => exact WFpos_mem hwf_tl hh
      · cases h2 : keyLt k k2
        · have hab2 : (a, b) ∈ (k2, w) :: aset tl k v := by
            simpa [aset, h1, h2] using hab
          cases List.mem_cons.mp hab2 with
          | inl hh =>
              rw [show b = w from congrArg Prod.snd hh,
                  show a = k2 from congrArg Prod.fst hh]
              exact WFpos_mem hwf (List.mem_cons_self _ _)
          | inr hh => exact WFpos_mem (ih hwf_tl) hh
        · have hab2 : (a, b) ∈ (k, v) :: (k2, w) :: tl := by
            simpa [aset, h1, h2] using hab
          cases List.mem_cons.mp hab2 with
          | inl hh =>
              rw [show b = v from congrArg Prod.snd hh,
                  show a = k from congrArg Prod.fst hh]
              exact hv
          | inr hh2 =>
              cases List.mem_cons.mp hh2 with
              | inl hh =>
                  rw [show b = w from congrArg Prod.snd hh,
                      show a = k2 from congrArg Prod.fst hh]
                  exact WFpos_mem hwf (List.mem_cons_self _ _)
              | inr hh => exact WFpos_mem hwf_tl hh

theorem WFpos_aerase {ps : List (String × Position)} {k : String}
    (hwf : WFpos ps) : WFpos (aerase ps k) := by
  induction ps with
  | nil =>
      refine WFpos_of_forall ?_
      intro a b hab
      simp [aerase] at hab
  | cons hd tl ih =>
      obtain ⟨k2, w⟩ := hd
      have hwf_tl : WFpos tl := WFpos_tail hwf
      refine WFpos_of_forall ?_
      intro a b hab
      by_cases h1 : k2 = k
      · rw [aerase, if_pos h1] at hab
        exact WFpos_mem (ih hwf_tl) hab
      · rw [aerase, if_neg h1] at hab
        cases List.mem_cons.mp hab with
        | inl hh =>
            rw [show b = w from congrArg Prod.snd hh,
                show a = k2 from congrArg Prod.fst hh]
            exact WFpos_mem hwf (List.mem_cons_self _ _)
        | inr hh => exact WFpos_mem (ih hwf_tl) hh


theorem updatePortfolio_mode (s : EngineState) (o : Order) :
    (updatePortfolio s o).mode = s.mode := by
  unfold updatePortfolio
  repeat' split
  all_goals rfl

theorem updatePortfolio_portfolio_eq (s t : EngineState) (o : Order)
    (h : s.portfolio = t.portfolio) :
    (updatePortfolio s o).portfolio = (updatePortfolio t o).portfolio := by
  unfold updatePortfolio
  rw [h]
  repeat' split
  all_goals simp_all

theorem WFpos_updatePortfolio {s : EngineState} (o : Order)
    (hwf : WFpos s.portfolio.positions) :
    WFpos (updatePortfolio s o).portfolio.positions := by
  unfold updatePortfolio
  split
  · cases hlk : alookup s.portfolio.positions o.symbol with
    | none => exact WFpos_aset hwf rfl
    | some pos =>
        dsimp only
        have hsym : pos.symbol = o.symbol := WFpos_alookup hwf hlk
        exact WFpos_aset hwf hsym
  · split
    · cases hlk : alookup s.portfolio.positions o.symbol with
      | none => exact hwf
      | some pos =>
          dsimp only
          have hsym : pos.symbol = o.symbol := WFpos_alookup hwf hlk
          split
          · exact WFpos_aerase hwf
          · exact WFpos_aset hwf hsym
    · exact hwf

theorem updatePortfolio_sell_keys {s : EngineState} {o : Order} {x : String}
    (hside : o.side = "SELL")
    (hx : x ∈ akeys (updatePortfolio s o).portfolio.positions) :
    x ∈ akeys s.portfolio.positions := by
  unfold updatePortfolio at hx
  rw [hside] at hx
  have hnb : ¬ ("SELL" : String) = "BUY" := by decide
  rw [if_neg hnb, if_pos rfl] at hx
  revert hx
  cases hlk : alookup s.portfolio.positions o.symbol with
  | none => exact id
  | some pos =>
      dsimp only
      split
      · exact fun hx => mem_akeys_aerase hx
      · intro hx
        rcases mem_akeys_aset hx with rfl | hx
        · exact mem_akeys_of_alookup hlk
        · exact hx

theorem updatePortfolio_sell_full_erase {s : EngineState} {o : Order} {pos : Position}
    (hside : o.side = "SELL")
    (hlk : alookup s.portfolio.positions o.symbol = some pos)
    (hq : o.quantity = pos.quantity) :
    (updatePortfolio s o).portfolio.positions = aerase s.portfolio.positions o.symbol := by
  unfold updatePortfolio
  rw [hside]
  have hnb : ¬ ("SELL" : String) = "BUY" := by decide
  rw [if_neg hnb, if_pos rfl, hlk]
  have hz : pos.quantity - o.quantity ≤ 0 := by rw [hq]; simp
  simp [hz]

theorem executeMarketOrder_mode (s : EngineState) (o : Order) (mp : ℚ) :
    (executeMarketOrder s o mp).mode = s.mode :=
  updatePortfolio_mode s _

theorem executeMarketOrder_portfolio (s : EngineState) (o : Order) (mp : ℚ) :
    (executeMarketOrder s o mp).portfolio =
      (updatePortfolio s { o with price := mp, status := "FILLED" }).portfolio := rfl

theorem simulateFill_mode (s : EngineState) (o : Order) (mp : ℚ) :
    (simulateFill s o mp).mode = s.mode := by
  unfold simulateFill
  split
  · exact executeMarketOrder_mode s _ _
  · rfl

theorem placeOrder_mode (s : EngineState) (sym side : String) (q : ℚ)
    (ty : String) (pr : ℚ) :
    ((placeOrder s sym side q ty pr).2).mode = s.mode := by
  unfold placeOrder
  split
  · rfl
  · split
    · rfl
    · split
      · exact simulateFill_mode _ _ _
      · rfl

theorem placeOrder_none_unchanged {s : EngineState} {sym side : String} {q : ℚ}
    {ty : String} {pr : ℚ}
    (h : (placeOrder s sym side q ty pr).1 = none) :
    (placeOrder s sym side q ty pr).2 = s := by
  by_cases h1 : q ≤ 0
  · simp [placeOrder, h1]
  · by_cases h2 : checkRiskLimits s q pr = false
    · simp [placeOrder, h1, h2]
    · have h2' : checkRiskLimits s q pr = true := by
        revert h2; cases checkRiskLimits s q pr <;> simp
      exfalso
      revert h
      simp only [placeOrder, if_neg h1, h2']
      by_cases hm : s.mode = TradingMode.PAPER ∧ ty = "MARKET" <;> simp [hm]

theorem checkRisk_not_false {s : EngineState} {q pr : ℚ}
    (h : ¬ checkRiskLimits s q pr = false) : checkRiskLimits s q pr = true := by
  revert h; cases checkRiskLimits s q pr <;> simp

/-- The portfolio after an accepted paper-mode MARKET order is the one
`updatePortfolio` produces for the filled order (slippage and spread
applied to the reference price). -/
theorem placeOrder_accept_portfolio (s : EngineState) (sym side : String) (q pr : ℚ)
    (h1 : ¬ q ≤ 0) (h2 : checkRiskLimits s q pr = true)
    (hm : s.mode = TradingMode.PAPER) :
    ((placeOrder s sym side q "MARKET" pr).2).portfolio =
      (updatePortfolio s
        ⟨orderIdFor s, sym, side, q,
         simulateSpread (simulateSlippage (if pr > 0 then pr else 100000) q side),
         "MARKET", "FILLED"⟩).portfolio := by
  have step : (placeOrder s sym side q "MARKET" pr).2 =
      simulateFill
        { s with order_counter := s.order_counter + 1
                 pending_orders := aset s.pending_orders (orderIdFor s)
                   ⟨orderIdFor s, sym, side, q, pr, "MARKET", "PENDING"⟩ }
        ⟨orderIdFor s, sym, side, q, pr, "MARKET", "PENDING"⟩
        (if pr > 0 then pr else 100000) := by
    simp [placeOrder, h1, h2, hm]
  rw [step]
  unfold simulateFill
  rw [if_pos rfl]
  rw [executeMarketOrder_portfolio]
  exact updatePortfolio_portfolio_eq _ _ _ rfl

/-- When no simulated fill runs (not paper mode or not a MARKET
order), `placeOrder` leaves the portfolio untouched. -/
theorem placeOrder_not_fill_portfolio (s : EngineState) (sym side : String) (q : ℚ)
    (ty : String) (pr : ℚ)
    (h : ¬ (s.mode = TradingMode.PAPER ∧ ty = "MARKET")) :
    ((placeOrder s sym side q ty pr).2).portfolio = s.portfolio := by
  by_cases h1 : q ≤ 0
  · simp [placeOrder, h1]
  · by_cases h2f : checkRiskLimits s q pr = false
    · simp [placeOrder, h1, h2f]
    · simp [placeOrder, h1, checkRisk_not_false h2f, h]

theorem placeOrder_sell_keys {s : EngineState} {sym : String} {q : ℚ}
    {ty : String} {pr : ℚ} {x : String}
    (hx : x ∈ akeys ((placeOrder s sym "SELL" q ty pr).2).portfolio.positions) :
    x ∈ akeys s.portfolio.positions := by
  by_cases hm : s.mode = TradingMode.PAPER ∧ ty = "MARKET"
  · by_cases h1 : q ≤ 0
    · simpa [placeOrder, h1] using hx
    · by_cases h2f : checkRiskLimits s q pr = false
      · simpa [placeOrder, h1, h2f] using hx
      · obtain ⟨hmp, hty⟩ := hm
        subst hty
        rw [placeOrder_accept_portfolio s sym "SELL" q pr h1
          (checkRisk_not_false h2f) hmp] at hx
        exact updatePortfolio_sell_keys rfl hx
  · rw [placeOrder_not_fill_portfolio s sym "SELL" q ty pr hm] at hx
    exact hx

theorem WFpos_placeOrder {s : EngineState} (sym side : String) (q : ℚ)
    (ty : String) (pr : ℚ) (hwf : WFpos s.portfolio.positions) :
    WFpos ((placeOrder s sym side q ty pr).2).portfolio.positions := by
  by_cases hm : s.mode = TradingMode.PAPER ∧ ty = "MARKET"
  · by_cases h1 : q ≤ 0
    · simpa [placeOrder, h1] using hwf
    · by_cases h2f : checkRiskLimits s q pr = false
      · simpa [placeOrder, h1, h2f] using hwf
      · obtain ⟨hmp, hty⟩ := hm
        subst hty
        rw [placeOrder_accept_portfolio s sym side q pr h1
          (checkRisk_not_false h2f) hmp]
        exact WFpos_updatePortfolio _ hwf
  · rw [placeOrder_not_fill_portfolio s sym side q ty pr hm]
    exact hwf

/-- In paper mode, an accepted full-quantity SELL MARKET order for a
held position erases that position (quantity reaches zero and the SELL
branch of `updatePortfolio` removes the map entry). -/
theorem placeOrder_paper_sell_erases {s : EngineState} {k : String} {pos : Position}
    {p : ℚ}
    (hm : s.mode = TradingMode.PAPER)
    (hlk : alookup s.portfolio.positions k = some pos)
    (hsome : ((placeOrder s k "SELL" pos.quantity "MARKET" p).1).isSome = true) :
    k ∉ akeys ((placeOrder s k "SELL" pos.quantity "MARKET" p).2).portfolio.positions := by
  by_cases h1 : pos.quantity ≤ 0
  · simp [placeOrder, h1] at hsome
  · by_cases h2f : checkRiskLimits s pos.quantity p = false
    · simp [placeOrder, h1, h2f] at hsome
    · rw [placeOrder_accept_portfolio s k "SELL" pos.quantity p h1
        (checkRisk_not_false h2f) hm]
      rw [updatePortfolio_sell_full_erase rfl hlk rfl]
      exact not_mem_akeys_aerase_self _ _

theorem applyStopLossStep_mode (s : EngineState) (pos : Position) (p : ℚ) :
    ((applyStopLossStep s pos p).2).mode = s.mode := by
  unfold applyStopLossStep
  split
  · rcases hpo : placeOrder s pos.symbol "SELL" pos.quantity "MARKET" p with ⟨r, s2⟩
    have := placeOrder_mode s pos.symbol "SELL" pos.quantity "MARKET" p
    rw [hpo] at this
    cases r <;> simpa using this
  · rfl

theorem applyTakeProfitStep_mode (s : EngineState) (sym : String) (p : ℚ) :
    ((applyTakeProfitStep s sym p).2).mode = s.mode := by
  unfold applyTakeProfitStep
  split
  · rfl
  · next pos heq =>
      split
      · rcases hpo : placeOrder s pos.symbol "SELL" pos.quantity "MARKET" p with ⟨r, s2⟩
        have := placeOrder_mode s pos.symbol "SELL" pos.quantity "MARKET" p
        rw [hpo] at this
        cases r <;> simpa using this
      · rfl

theorem WFpos_applyStopLossStep {s : EngineState} (pos : Position) (p : ℚ)
    (hwf : WFpos s.portfolio.positions) :
    WFpos ((applyStopLossStep s pos p).2).portfolio.positions := by
  unfold applyStopLossStep
  split
  · rcases hpo : placeOrder s pos.symbol "SELL" pos.quantity "MARKET" p with ⟨r, s2⟩
    have := WFpos_placeOrder pos.symbol "SELL" pos.quantity "MARKET" p hwf
    rw [hpo] at this
    cases r <;> simpa using this
  · exact hwf

theorem WFpos_applyTakeProfitStep {s : EngineState} (sym : String) (p : ℚ)
    (hwf : WFpos s.portfolio.positions) :
    WFpos ((applyTakeProfitStep s sym p).2).portfolio.positions := by
  unfold applyTakeProfitStep
  split
  · exact hwf
  · next pos heq =>
      split
      · rcases hpo : placeOrder s pos.symbol "SELL" pos.quantity "MARKET" p with ⟨r, s2⟩
        have := WFpos_placeOrder pos.symbol "SELL" pos.quantity "MARKET" p hwf
        rw [hpo] at this
        cases r <;> simpa using this
      · exact hwf

theorem applyStopLossStep_keys {s : EngineState} {pos : Position} {p : ℚ} {x : String}
    (hx : x ∈ akeys ((applyStopLossStep s pos p).2).portfolio.positions) :
    x ∈ akeys s.portfolio.positions := by
  unfold applyStopLossStep at hx
  revert hx
  split
  · rcases hpo : placeOrder s pos.symbol "SELL" pos.quantity "MARKET" p with ⟨r, s2⟩
    intro hx
    have hx2 : x ∈ akeys ((placeOrder s pos.symbol "SELL" pos.quantity "MARKET" p).2).portfolio.positions := by
      rw [hpo]
      cases r <;> simpa using hx
    exact placeOrder_sell_keys hx2
  · exact id

theorem applyTakeProfitStep_keys {s : EngineState} {sym : String} {p : ℚ} {x : String}
    (hx : x ∈ akeys ((applyTakeProfitStep s sym p).2).portfolio.positions) :
    x ∈ akeys s.portfolio.positions := by
  unfold applyTakeProfitStep at hx
  revert hx
  split
  · exact id
  · next pos heq =>
      split
      · rcases hpo : placeOrder s pos.symbol "SELL" pos.quantity "MARKET" p with ⟨r, s2⟩
        intro hx
        have hx2 : x ∈ akeys ((placeOrder s pos.symbol "SELL" pos.quantity "MARKET" p).2).portfolio.positions := by
          rw [hpo]
          cases r <;> simpa using hx
        exact placeOrder_sell_keys hx2
      · exact id

theorem applyStopLossStep_placed {s : EngineState} {pos : Position} {p : ℚ} {x : String}
    (hx : x ∈ (applyStopLossStep s pos p).1) : x = pos.symbol := by
  unfold applyStopLossStep at hx
  revert hx
  split
  · rcases hpo : placeOrder s pos.symbol "SELL" pos.quantity "MARKET" p with ⟨r, s2⟩
    cases r <;> simp
  · simp

theorem applyTakeProfitStep_placed {s : EngineState} {sym : String} {p : ℚ} {x : String}
    (hwf : WFpos s.portfolio.positions)
    (hx : x ∈ (applyTakeProfitStep s sym p).1) : x = sym := by
  unfold applyTakeProfitStep at hx
  revert hx
  split
  · simp
  · next pos heq =>
      have hsym : pos.symbol = sym := WFpos_alookup hwf heq
      split
      · rcases hpo : placeOrder s pos.symbol "SELL" pos.quantity "MARKET" p with ⟨r, s2⟩
        cases r <;> simp [hsym]
      · simp

theorem applyStopLossStep_nil {s : EngineState} {pos : Position} {p : ℚ}
    (h : (applyStopLossStep s pos p).1 = []) : (applyStopLossStep s pos p).2 = s := by
  unfold applyStopLossStep at h ⊢
  revert h
  split
  · rcases hpo : placeOrder s pos.symbol "SELL" pos.quantity "MARKET" p with ⟨r, s2⟩
    cases r with
    | none =>
        intro h
        have := placeOrder_none_unchanged (by rw [hpo] :
          (placeOrder s pos.symbol "SELL" pos.quantity "MARKET" p).1 = none)
        rw [hpo] at this
        simpa using this
    | some oid => intro h; simp at h
  · intro h; rfl

theorem applyTakeProfitStep_nil {s : EngineState} {sym : String} {p : ℚ}
    (h : (applyTakeProfitStep s sym p).1 = []) : (applyTakeProfitStep s sym p).2 = s := by
  unfold applyTakeProfitStep at h ⊢
  revert h
  split
  · intro h; rfl
  · next pos heq =>
      split
      · rcases hpo : placeOrder s pos.symbol "SELL" pos.quantity "MARKET" p with ⟨r, s2⟩
        cases r with
        | none =>
            intro h
            have := placeOrder_none_unchanged (by rw [hpo] :
              (placeOrder s pos.symbol "SELL" pos.quantity "MARKET" p).1 = none)
            rw [hpo] at this
            simpa using this
        | some oid => intro h; simp at h
      · intro h; rfl

theorem applyStopLossStep_accept_erases {s : EngineState} {pos : Position} {p : ℚ}
    {k : String}
    (hm : s.mode = TradingMode.PAPER)
    (hlk : alookup s.portfolio.positions k = some pos)
    (hsym : pos.symbol = k)
    (hne : (applyStopLossStep s pos p).1 ≠ []) :
    k ∉ akeys ((applyStopLossStep s pos p).2).portfolio.positions := by
  subst hsym
  unfold applyStopLossStep at hne ⊢
  revert hne
  split
  · rcases hpo : placeOrder s pos.symbol "SELL" pos.quantity "MARKET" p with ⟨r, s2⟩
    cases r with
    | none => intro hne; simp at hne
    | some oid =>
        intro hne
        dsimp only
        have h5 := placeOrder_paper_sell_erases hm hlk (by rw [hpo]; rfl)
        rw [hpo] at h5
        exact h5
  · intro hne; simp at hne

theorem applyTakeProfitStep_accept_erases {s : EngineState} {sym : String} {p : ℚ}
    (hm : s.mode = TradingMode.PAPER)
    (hwf : WFpos s.portfolio.positions)
    (hne : (applyTakeProfitStep s sym p).1 ≠ []) :
    sym ∉ akeys ((applyTakeProfitStep s sym p).2).portfolio.positions := by
  unfold applyTakeProfitStep at hne ⊢
  revert hne
  split
  · intro hne; simp at hne
  · next pos heq =>
      have hsym : pos.symbol = sym := WFpos_alookup hwf heq
      split
      · rcases hpo : placeOrder s pos.symbol "SELL" pos.quantity "MARKET" p with ⟨r, s2⟩
        cases r with
        | none => intro hne; simp at hne
        | some oid =>
            intro hne
            dsimp only
            have hlk2 : alookup s.portfolio.positions pos.symbol = some pos := by
              rw [hsym]; exact heq
            have h5 := placeOrder_paper_sell_erases (p := p) hm hlk2 (by rw [hpo]; rfl)
            rw [hpo] at h5
            rw [← hsym]
            simpa using h5
      · intro hne; simp at hne

theorem applyTakeProfitStep_none {s : EngineState} {sym : String} (p : ℚ)
    (h : alookup s.portfolio.positions sym = none) :
    applyTakeProfitStep s sym p = ([], s) := by
  simp [applyTakeProfitStep, h]

theorem processSymbol_eq_some {s : EngineState} {prices : List (String × ℚ)}
    {sym : String} {pos : Position} {p : ℚ}
    (h1 : alookup s.portfolio.positions sym = some pos)
    (h2 : alookup prices sym = some p) :
    processSymbol s prices sym =
      ((applyTakeProfitStep
          (applyStopLossStep (posUpd s sym pos p) (pos1of pos p) p).2 sym p).2,
       (applyStopLossStep (posUpd s sym pos p) (pos1of pos p) p).1 ++
       (applyTakeProfitStep
          (applyStopLossStep (posUpd s sym pos p) (pos1of pos p) p).2 sym p).1) := by
  simp only [processSymbol, h1, h2]

theorem processSymbol_eq_of_no_position {s : EngineState} {prices : List (String × ℚ)}
    {sym : String}
    (h1 : alookup s.portfolio.positions sym = none) :
    processSymbol s prices sym = (s, []) := by
  simp only [processSymbol, h1]

theorem processSymbol_eq_of_no_price {s : EngineState} {prices : List (String × ℚ)}
    {sym : String}
    (h2 : alookup prices sym = none) :
    processSymbol s prices sym = (s, []) := by
  cases h1 : alookup s.portfolio.positions sym <;> simp only [processSymbol, h1, h2]

theorem processSymbol_mode (s : EngineState) (prices : List (String × ℚ)) (sym : String) :
    ((processSymbol s prices sym).1).mode = s.mode := by
  cases h1 : alookup s.portfolio.positions sym with
  | none => rw [processSymbol_eq_of_no_position h1]
  | some pos =>
      cases h2 : alookup prices sym with
      | none => rw [processSymbol_eq_of_no_price h2]
      | some p =>
          rw [processSymbol_eq_some h1 h2]
          dsimp only
          rw [applyTakeProfitStep_mode, applyStopLossStep_mode]
          rfl

theorem WFpos_processSymbol {s : EngineState} (prices : List (String × ℚ)) (sym : String)
    (hwf : WFpos s.portfolio.positions) :
    WFpos ((processSymbol s prices sym).1).portfolio.positions := by
  cases h1 : alookup s.portfolio.positions sym with
  | none => rw [processSymbol_eq_of_no_position h1]; exact hwf
  | some pos =>
      cases h2 : alookup prices sym with
      | none => rw [processSymbol_eq_of_no_price h2]; exact hwf
      | some p =>
          rw [processSymbol_eq_some h1 h2]
          dsimp only
          have hsym0 : pos.symbol = sym := WFpos_alookup hwf h1
          have hsym : (pos1of pos p).symbol = sym := hsym0
          have hwf1 : WFpos (posUpd s sym pos p).portfolio.positions :=
            WFpos_aset hwf hsym
          exact WFpos_applyTakeProfitStep _ _ (WFpos_applyStopLossStep _ _ hwf1)

theorem processSymbol_keys {s : EngineState} {prices : List (String × ℚ)}
    {sym x : String}
    (hx : x ∈ akeys ((processSymbol s prices sym).1).portfolio.positions) :
    x ∈ akeys s.portfolio.positions := by
  revert hx
  cases h1 : alookup s.portfolio.positions sym with
  | none => rw [processSymbol_eq_of_no_position h1]; exact id
  | some pos =>
      cases h2 : alookup prices sym with
      | none => rw [processSymbol_eq_of_no_price h2]; exact id
      | some p =>
          rw [processSymbol_eq_some h1 h2]
          intro hx
          have hx2 := applyStopLossStep_keys (applyTakeProfitStep_keys hx)
          have hx3 : x ∈ akeys (aset s.portfolio.positions sym (pos1of pos p)) := hx2
          rcases mem_akeys_aset hx3 with rfl | hx4
          · exact mem_akeys_of_alookup h1
          · exact hx4

theorem processSymbol_placed {s : EngineState} {prices : List (String × ℚ)}
    {sym x : String}
    (hwf : WFpos s.portfolio.positions)
    (hx : x ∈ (processSymbol s prices sym).2) : x = sym := by
  revert hx
  cases h1 : alookup s.portfolio.positions sym with
  | none => rw [processSymbol_eq_of_no_position h1]; intro hx; simp at hx
  | some pos =>
      cases h2 : alookup prices sym with
      | none => rw [processSymbol_eq_of_no_price h2]; intro hx; simp at hx
      | some p =>
          rw [processSymbol_eq_some h1 h2]
          intro hx
          have hsym0 : pos.symbol = sym := WFpos_alookup hwf h1
          have hsym : (pos1of pos p).symbol = sym := hsym0
          have hwf1 : WFpos (posUpd s sym pos p).portfolio.positions :=
            WFpos_aset hwf hsym
          rcases List.mem_append.mp hx with hx1 | hx2
          · rw [applyStopLossStep_placed hx1]
            exact hsym
          · exact applyTakeProfitStep_placed (WFpos_applyStopLossStep _ _ hwf1) hx2

theorem processSymbol_held_of_placed {s : EngineState} {prices : List (String × ℚ)}
    {sym : String}
    (hne : (processSymbol s prices sym).2 ≠ []) :
    sym ∈ akeys s.portfolio.positions := by
  cases h1 : alookup s.portfolio.positions sym with
  | none => rw [processSymbol_eq_of_no_position h1] at hne; simp at hne
  | some pos => exact mem_akeys_of_alookup h1

theorem processSymbol_accept_erases {s : EngineState} {prices : List (String × ℚ)}
    {sym : String}
    (hm : s.mode = TradingMode.PAPER)
    (hwf : WFpos s.portfolio.positions)
    (hne : (processSymbol s prices sym).2 ≠ []) :
    sym ∉ akeys ((processSymbol s prices sym).1).portfolio.positions := by
  revert hne
  cases h1 : alookup s.portfolio.positions sym with
  | none => rw [processSymbol_eq_of_no_position h1]; intro hne; simp at hne
  | some pos =>
      cases h2 : alookup prices sym with
      | none => rw [processSymbol_eq_of_no_price h2]; intro hne; simp at hne
      | some p =>
          rw [processSymbol_eq_some h1 h2]
          intro hne
          dsimp only at hne ⊢
          have hsym0 : pos.symbol = sym := WFpos_alookup hwf h1
          have hsym : (pos1of pos p).symbol = sym := hsym0
          have hwf1 : WFpos (posUpd s sym pos p).portfolio.positions :=
            WFpos_aset hwf hsym
          have hm1 : (posUpd s sym pos p).mode = TradingMode.PAPER := hm
          by_cases hA : (applyStopLossStep (posUpd s sym pos p) (pos1of pos p) p).1 = []
          · -- the stop-loss attempt placed nothing: the state is still
            -- the refreshed one, so the take-profit attempt placed
            rw [applyStopLossStep_nil hA] at hne ⊢
            rw [hA] at hne
            simp only [List.nil_append] at hne
            exact applyTakeProfitStep_accept_erases hm1 hwf1 hne
          · -- the stop-loss order was accepted and erased the position;
            -- the take-profit step then finds nothing and is a no-op
            have hlk1 : alookup (posUpd s sym pos p).portfolio.positions sym =
                some (pos1of pos p) := alookup_aset_self _ _ _
            have herase := applyStopLossStep_accept_erases hm1 hlk1 hsym hA
            have hnone : alookup
                ((applyStopLossStep (posUpd s sym pos p) (pos1of pos p) p).2).portfolio.positions
                sym = none := alookup_eq_none_of_not_mem_akeys herase
            rw [applyTakeProfitStep_none p hnone]
            exact herase

theorem updateLoop_mode (prices : List (String × ℚ)) (l : List String) :
    ∀ s : EngineState, ((updateLoop prices s l).1).mode = s.mode := by
  induction l with
  | nil => intro s; rfl
  | cons k rest ih =>
      intro s
      unfold updateLoop
      dsimp only
      rw [ih, processSymbol_mode]

theorem WFpos_updateLoop (prices : List (String × ℚ)) (l : List String) :
    ∀ s : EngineState, WFpos s.portfolio.positions →
      WFpos ((updateLoop prices s l).1).portfolio.positions := by
  induction l with
  | nil => intro s hwf; exact hwf
  | cons k rest ih =>
      intro s hwf
      unfold updateLoop
      dsimp only
      exact ih _ (WFpos_processSymbol prices k hwf)

theorem updateLoop_keys (prices : List (String × ℚ)) (l : List String) :
    ∀ (s : EngineState) (x : String),
      x ∈ akeys ((updateLoop prices s l).1).portfolio.positions →
      x ∈ akeys s.portfolio.positions := by
  induction l with
  | nil => intro s x hx; exact hx
  | cons k rest ih =>
      intro s x hx
      unfold updateLoop at hx
      dsimp only at hx
      exact processSymbol_keys (ih _ _ hx)

theorem updateLoop_absent_not_placed (prices : List (String × ℚ)) (sym : String)
    (l : List String) :
    ∀ s : EngineState, WFpos s.portfolio.positions →
      sym ∉ akeys s.portfolio.positions →
      sym ∉ (updateLoop prices s l).2 := by
  induction l with
  | nil => intro s hwf habs h; simp [updateLoop] at h
  | cons k rest ih =>
      intro s hwf habs h
      unfold updateLoop at h
      dsimp only at h
      rcases List.mem_append.mp h with h1 | h2
      · have hksym : sym = k := processSymbol_placed hwf h1
        have hne : (processSymbol s prices k).2 ≠ [] := by
          intro hnil; rw [hnil] at h1; simp at h1
        have hheld := processSymbol_held_of_placed hne
        rw [hksym] at habs
        exact habs hheld
      · have hwf1 := WFpos_processSymbol prices k hwf
        have habs1 : sym ∉ akeys ((processSymbol s prices k).1).portfolio.positions :=
          fun hmem => habs (processSymbol_keys hmem)
        exact ih _ hwf1 habs1 h2

theorem updateLoop_placed_erased (prices : List (String × ℚ)) (sym : String)
    (l : List String) :
    ∀ s : EngineState, s.mode = TradingMode.PAPER → WFpos s.portfolio.positions →
      sym ∈ (updateLoop prices s l).2 →
      sym ∉ akeys ((updateLoop prices s l).1).portfolio.positions := by
  induction l with
  | nil => intro s hm hwf h; simp [updateLoop] at h
  | cons k rest ih =>
      intro s hm hwf h
      unfold updateLoop at h ⊢
      dsimp only at h ⊢
      rcases List.mem_append.mp h with h1 | h2
      · have hksym : sym = k := processSymbol_placed hwf h1
        have hne : (processSymbol s prices k).2 ≠ [] := by
          intro hnil; rw [hnil] at h1; simp at h1
        have herase := processSymbol_accept_erases hm hwf hne
        rw [hksym]
        intro hmem
        exact herase (updateLoop_keys prices rest _ _ hmem)
      · exact ih _ (by rw [processSymbol_mode]; exact hm)
          (WFpos_processSymbol prices k hwf) h2

theorem placedSymbols_eq (s : EngineState) (prices : List (String × ℚ)) :
    placedSymbols s prices = (updateLoop prices s (akeys s.portfolio.positions)).2 := rfl

theorem updatePositionPrices_positions (s : EngineState) (prices : List (String × ℚ)) :
    (updatePositionPrices s prices).portfolio.positions =
      ((updateLoop prices s (akeys s.portfolio.positions)).1).portfolio.positions := rfl

/-- Claim C5 (amended): in paper mode, on a well-formed portfolio
(each position stored under its own symbol, as the engine always
does), any symbol for which the first `updatePositionPrices` call
accepted a stop-loss/take-profit order generates no order on the
second call with the same price map: the accepted MARKET sell filled
at once and erased the position.  (As stated the claim is false: a
sell *rejected* by the risk checks on the first call can pass on the
second, because another position's accepted stop-loss sale raised the
cash balance — see the counterexample.) -/
theorem updatePositionPrices_no_repeat (s : EngineState) (prices : List (String × ℚ))
    (sym : String)
    (hm : s.mode = TradingMode.PAPER)
    (hwf : WFpos s.portfolio.positions)
    (hplaced : sym ∈ placedSymbols s prices) :
    sym ∉ placedSymbols (updatePositionPrices s prices) prices := by
  rw [placedSymbols_eq] at hplaced
  have h1 : sym ∉ akeys ((updateLoop prices s (akeys s.portfolio.positions)).1).portfolio.positions :=
    updateLoop_placed_erased prices sym _ s hm hwf hplaced
  have hwf' : WFpos (updatePositionPrices s prices).portfolio.positions := by
    rw [updatePositionPrices_positions]
    exact WFpos_updateLoop prices _ s hwf
  have habsent : sym ∉ akeys (updatePositionPrices s prices).portfolio.positions := by
    rw [updatePositionPrices_positions]
    exact h1
  rw [placedSymbols_eq]
  exact updateLoop_absent_not_placed prices sym _ _ hwf' habsent

/-! The counterexample state for C5 as stated: two losing positions,
"AAA" (notional 90) and "BBB" (notional 45), with only 50 cash.  On
the first call "AAA"'s stop-loss sell is rejected for insufficient
cash, then "BBB"'s is accepted and its fill credits about 44.98 cash.
On the second call with the unchanged price map, "AAA"'s stop-loss
sell now passes the cash check and a new order is placed. -/

theorem keyLt_BBB_AAA : keyLt "BBB" "AAA" = false := by decide

theorem keyLt_AAA_BBB : keyLt "AAA" "BBB" = true := by decide

def idemPosA : Position := ⟨"AAA", 1, 100, 100, 0⟩
def idemPosB : Position := ⟨"BBB", 1/2, 100, 100, 0⟩
def idemPosA1 : Position := ⟨"AAA", 1, 100, 90, -10⟩
def idemPosB1 : Position := ⟨"BBB", 1/2, 100, 90, -5⟩

def idemState : EngineState :=
  ⟨TradingMode.PAPER, ⟨50, 185, [("AAA", idemPosA), ("BBB", idemPosB)]⟩,
   5000, 1/5, 1/50, 1/20, 100, 100, [], [], 0⟩

def idemPrices : List (String × ℚ) := [("AAA", 90), ("BBB", 90)]

/-- State after the first call has processed "AAA" (prices refreshed,
stop-loss sell rejected for insufficient cash). -/
def idemS1 : EngineState :=
  ⟨TradingMode.PAPER, ⟨50, 185, [("AAA", idemPosA1), ("BBB", idemPosB)]⟩,
   5000, 1/5, 1/50, 1/20, 100, 100, [], [], 0⟩

/-- The filled stop-loss sell of "BBB": half a unit at the slipped,
spread-adjusted price of 90. -/
def idemOrderB : Order :=
  ⟨"ORD_1", "BBB", "SELL", 1/2, 3598180191/40000000, "MARKET", "FILLED"⟩

/-- State after the first call has also processed "BBB" (its sell was
accepted, filled, and the position erased; cash and peak updated). -/
def idemS2 : EngineState :=
  ⟨TradingMode.PAPER, ⟨7598180191/80000000, 185, [("AAA", idemPosA1)]⟩,
   5000, 1/5, 1/50, 1/20, 100, 14798180191/80000000,
   [], [("ORD_1", idemOrderB)], 1⟩

/-- State at the end of the first `updatePositionPrices` call (total
value refreshed to the new equity). -/
def idemS3 : EngineState :=
  ⟨TradingMode.PAPER, ⟨7598180191/80000000, 14798180191/80000000, [("AAA", idemPosA1)]⟩,
   5000, 1/5, 1/50, 1/20, 100, 14798180191/80000000,
   [], [("ORD_1", idemOrderB)], 1⟩

/-- State after the first call's "BBB" iteration has refreshed the
position but before its stop-loss sell. -/
def idemSB : EngineState :=
  ⟨TradingMode.PAPER, ⟨50, 185, [("AAA", idemPosA1), ("BBB", idemPosB1)]⟩,
   5000, 1/5, 1/50, 1/20, 100, 100, [], [], 0⟩

/-- The stop-loss sell of "AAA" the second call places and fills. -/
def idemOrderA2 : Order :=
  ⟨"ORD_2", "AAA", "SELL", 1, 1799081091/20000000, "MARKET", "FILLED"⟩

/-- State after the second call's "AAA" stop-loss sell has filled. -/
def idemS4 : EngineState :=
  ⟨TradingMode.PAPER, ⟨14794504555/80000000, 14798180191/80000000, []⟩,
   5000, 1/5, 1/50, 1/20, 100, 14798180191/80000000,
   [], [("ORD_1", idemOrderB), ("ORD_2", idemOrderA2)], 2⟩

theorem keyLt_ORD2_ORD1 : keyLt "ORD_2" "ORD_1" = false := by decide

theorem ne_SELL_BUY : ¬ (("SELL" : String) = "BUY") := by decide

theorem ne_AAA_BBB : ¬ (("AAA" : String) = "BBB") := by decide

theorem ne_BBB_AAA : ¬ (("BBB" : String) = "AAA") := by decide

theorem ne_ORD1_ORD2 : ¬ (("ORD_1" : String) = "ORD_2") := by decide

theorem ne_ORD2_ORD1 : ¬ (("ORD_2" : String) = "ORD_1") := by decide

theorem ordIdOne : "ORD_" ++ toString (1 : Nat) = "ORD_1" := by decide

theorem ordIdTwo : "ORD_" ++ toString (2 : Nat) = "ORD_2" := by decide

/-- Counterexample to C5 as stated: calling `updatePositionPrices`
twice with the unchanged price map `idemPrices` from `idemState`
places a new order ("AAA"'s stop-loss sell, rejected for insufficient
cash on the first call, affordable on the second after "BBB"'s
accepted stop-loss sale credited its proceeds) on the second call. -/
theorem updatePositionPrices_second_call_places :
    placedSymbols (updatePositionPrices idemState idemPrices) idemPrices ≠ [] := by
  -- first call, "AAA": stop-loss fires but the sell is rejected
  have hlkA : alookup idemState.portfolio.positions "AAA" = some idemPosA := rfl
  have hpA : alookup idemPrices "AAA" = some (90 : ℚ) := rfl
  have hpos1A : pos1of idemPosA 90 = idemPosA1 := by
    norm_num [pos1of, idemPosA, idemPosA1]
  have hupdA : posUpd idemState "AAA" idemPosA 90 = idemS1 := by
    norm_num [posUpd, pos1of, aset, idemState, idemS1, idemPosA, idemPosA1, idemPosB]
  have hstopA : applyStopLossStep idemS1 idemPosA1 90 = ([], idemS1) := by
    norm_num [applyStopLossStep, placeOrder, checkRiskLimits, riskRejectReason,
      getEquity, ne_SELL_BUY, idemS1, idemPosA1, idemPosB]
  have htpA : applyTakeProfitStep idemS1 "AAA" 90 = ([], idemS1) := by
    norm_num [applyTakeProfitStep, alookup, idemS1, idemPosA1, idemPosB]
  have hA : processSymbol idemState idemPrices "AAA" = (idemS1, []) := by
    rw [processSymbol_eq_some hlkA hpA, hpos1A, hupdA, hstopA]
    dsimp only
    rw [htpA]
    rfl
  -- first call, "BBB": stop-loss fires, the sell is accepted and fills
  have hlkB : alookup idemS1.portfolio.positions "BBB" = some idemPosB := rfl
  have hpB : alookup idemPrices "BBB" = some (90 : ℚ) := rfl
  have hpos1B : pos1of idemPosB 90 = idemPosB1 := by
    norm_num [pos1of, idemPosB, idemPosB1]
  have hupdB : posUpd idemS1 "BBB" idemPosB 90 = idemSB := by
    norm_num [posUpd, pos1of, aset, keyLt_BBB_AAA, ne_AAA_BBB, idemS1, idemSB,
      idemPosA1, idemPosB, idemPosB1]
  have hstopB : applyStopLossStep idemSB idemPosB1 90 = (["BBB"], idemS2) := by
    norm_num [applyStopLossStep, placeOrder, checkRiskLimits, riskRejectReason,
      getEquity, orderIdFor, simulateFill, executeMarketOrder, updatePortfolio,
      simulateSlippage, simulateSpread, alookup, aset, aerase, ordIdOne,
      ne_SELL_BUY, ne_AAA_BBB, ne_BBB_AAA,
      idemSB, idemS2, idemPosA1, idemPosB1, idemOrderB]
  have htpB : applyTakeProfitStep idemS2 "BBB" 90 = ([], idemS2) :=
    applyTakeProfitStep_none 90 rfl
  have hB : processSymbol idemS1 idemPrices "BBB" = (idemS2, ["BBB"]) := by
    rw [processSymbol_eq_some hlkB hpB, hpos1B, hupdB, hstopB]
    dsimp only
    rw [htpB]
    rfl
  -- the whole first call
  have hkeys : akeys idemState.portfolio.positions = ["AAA", "BBB"] := rfl
  have hloop : updateLoop idemPrices idemState ["AAA", "BBB"] = (idemS2, ["BBB"]) := by
    simp [updateLoop, hA, hB]
  have hupd : updatePositionPrices idemState idemPrices = idemS3 := by
    simp only [updatePositionPrices, updatePositionPricesFull, hkeys, hloop]
    norm_num [getEquity, idemS2, idemS3, idemPosA1]
  -- second call, "AAA": the stop-loss sell now passes the cash check
  have hlkA2 : alookup idemS3.portfolio.positions "AAA" = some idemPosA1 := rfl
  have hpos1A2 : pos1of idemPosA1 90 = idemPosA1 := by
    norm_num [pos1of, idemPosA1]
  have hupdA2 : posUpd idemS3 "AAA" idemPosA1 90 = idemS3 := by
    norm_num [posUpd, pos1of, aset, idemS3, idemPosA1]
  have hstopA2 : applyStopLossStep idemS3 idemPosA1 90 = (["AAA"], idemS4) := by
    norm_num [applyStopLossStep, placeOrder, checkRiskLimits, riskRejectReason,
      getEquity, orderIdFor, simulateFill, executeMarketOrder, updatePortfolio,
      simulateSlippage, simulateSpread, alookup, aset, aerase, ordIdTwo,
      keyLt_ORD2_ORD1, ne_SELL_BUY, ne_ORD1_ORD2, ne_ORD2_ORD1,
      idemS3, idemS4, idemPosA1, idemOrderB, idemOrderA2]
  have htpA2 : applyTakeProfitStep idemS4 "AAA" 90 = ([], idemS4) :=
    applyTakeProfitStep_none 90 rfl
  have hA2 : processSymbol idemS3 idemPrices "AAA" = (idemS4, ["AAA"]) := by
    rw [processSymbol_eq_some hlkA2 hpA, hpos1A2, hupdA2, hstopA2]
    dsimp only
    rw [htpA2]
    rfl
  have hkeys3 : akeys idemS3.portfolio.positions = ["AAA"] := rfl
  have hsecond : placedSymbols idemS3 idemPrices = ["AAA"] := by
    rw [placedSymbols_eq, hkeys3]
    simp [updateLoop, hA2]
  rw [hupd, hsecond]
  simp

/-- Witness for C5 (amended): a single losing position whose stop-loss
sell is accepted on the first call generates nothing for that symbol
on the second. -/
theorem updatePositionPrices_no_repeat_witness :
    "AAA" ∉ placedSymbols
      (updatePositionPrices
        ⟨TradingMode.PAPER, ⟨1000, 1090, [("AAA", ⟨"AAA", 1, 100, 100, 0⟩)]⟩,
         5000, 1/5, 1/50, 1/20, 100, 100, [], [], 0⟩
        [("AAA", 90)])
      [("AAA", 90)] :=
  updatePositionPrices_no_repeat
    ⟨TradingMode.PAPER, ⟨1000, 1090, [("AAA", ⟨"AAA", 1, 100, 100, 0⟩)]⟩,
     5000, 1/5, 1/50, 1/20, 100, 100, [], [], 0⟩
    [("AAA", 90)] "AAA" rfl (by decide)
    (by
      have h : placedSymbols
          ⟨TradingMode.PAPER, ⟨1000, 1090, [("AAA", ⟨"AAA", 1, 100, 100, 0⟩)]⟩,
           5000, 1/5, 1/50, 1/20, 100, 100, [], [], 0⟩
          [("AAA", 90)] = ["AAA"] := by
        norm_num [placedSymbols, updatePositionPricesFull, updateLoop, akeys,
          processSymbol, applyStopLossStep, applyTakeProfitStep, posUpd, pos1of,
          placeOrder, checkRiskLimits, riskRejectReason, getEquity, alookup, aset,
          aerase, keyLt_BBB_AAA, keyLt_AAA_BBB, orderIdFor, simulateFill, executeMarketOrder, updatePortfolio,
          simulateSlippage, simulateSpread]
      rw [h]
      exact List.mem_singleton.mpr rfl)

end TradingSystem
